import Mathlib

/-!
# Verification of the Caption-Bot collection/upload pipeline

Shallow embedding of `src/bot/plugins/collection.py`:

* `extract_info_from_caption` — the caption metadata extractor, including
  faithful models of the three regular expressions it uses
  (`[Ss](?:eason)?[\s\.]?(\d+)`, `[Ee](?:pisode)?[\s\.]?(\d+)`,
  `(\d{3,4})[pP]`) and of the series-name derivation
  (`re.split(r'[Ss]\d+|[Ee]\d+|\d{3,4}p', ...)[0]`, bracket/dollar
  stripping, whitespace strip).
* `format_caption` — extension stripping plus bold wrapping.
* `handle_file_collection` — acceptance of an inbound file into the
  collection state.
* `organize` / `upload_command` — the grouping, episode ordering,
  quality ordering, delivery loop, failure accounting and the final
  state reset performed by the `/upload` command.

Machine-level behaviour that the Python runtime provides (regex
backtracking order, `dict` insertion order, stability of `sorted`,
string truthiness) is modelled explicitly and noted at each definition.
-/

/-- Python's `\s` character class restricted to its ASCII members
` \t\n\r\f\v`, which is what the captions in question contain. -/
def isPySpace (c : Char) : Bool :=
  c = ' ' || c = '\t' || c = '\n' || c = '\r' || c = '\x0c' || c = '\x0b'

/-- Greedy `\d+`: the maximal leading digit run, `none` when empty.
Mirrors the capture group `(\d+)` at the end of the season/episode
patterns (nothing follows it, so the engine never backtracks into it). -/
def digitsCapture (cs : List Char) : Option (List Char) :=
  match cs.takeWhile Char.isDigit with
  | [] => none
  | ds => some ds

/-- Continuations, in backtracking priority order, of the optional
literal word `(?:word)?` (greedy: consuming the word is tried first). -/
def wordAlts (word : List Char) (cs : List Char) : List (List Char) :=
  if word.isPrefixOf cs then [cs.drop word.length, cs] else [cs]

/-- Continuations, in backtracking priority order, of the optional
separator `[\s\.]?` (greedy: consuming one space/dot is tried first). -/
def sepAlts (cs : List Char) : List (List Char) :=
  match cs with
  | [] => [[]]
  | c :: rest => if isPySpace c || c = '.' then [rest, c :: rest] else [c :: rest]

/-- Attempt of the pattern `[Cc](?:word)?[\s\.]?(\d+)` anchored at the
head of `cs`; returns the digits captured by `(\d+)`.  Alternatives are
explored in the engine's greedy backtracking order. -/
def matchMarkerAt (c1 c2 : Char) (word : List Char) (cs : List Char) :
    Option (List Char) :=
  match cs with
  | [] => none
  | c :: rest =>
    if c = c1 || c = c2 then
      (wordAlts word rest).findSome? (fun t => (sepAlts t).findSome? digitsCapture)
    else none

/-- `re.search` of the marker pattern: leftmost start position wins.
Returns `(text before the match start, captured digits)`, the first
component modelling `caption[:match.start()]`. -/
def searchMarker (c1 c2 : Char) (word : List Char) :
    List Char → Option (List Char × List Char)
  | [] => none
  | c :: rest =>
    match matchMarkerAt c1 c2 word (c :: rest) with
    | some ds => some ([], ds)
    | none => (searchMarker c1 c2 word rest).map (fun m => (c :: m.1, m.2))

/-- Attempt of `(\d{3,4})[pP]` anchored at the head of `cs`:
greedily four digits then `p`/`P`, backtracking to three digits. -/
def matchQualityAt (cs : List Char) : Option (List Char) :=
  let d4 := cs.take 4
  let ok4 := d4.length = 4 && d4.all Char.isDigit &&
    (match cs.drop 4 with
     | c :: _ => c = 'p' || c = 'P'
     | [] => false)
  if ok4 then some d4
  else
    let d3 := cs.take 3
    let ok3 := d3.length = 3 && d3.all Char.isDigit &&
      (match cs.drop 3 with
       | c :: _ => c = 'p' || c = 'P'
       | [] => false)
    if ok3 then some d3 else none

/-- `re.search(r'(\d{3,4})[pP]', text)`: leftmost match, captured digits. -/
def searchQuality : List Char → Option (List Char)
  | [] => none
  | c :: rest =>
    match matchQualityAt (c :: rest) with
    | some ds => some ds
    | none => searchQuality rest

/-- Does one of the alternatives `[Ss]\d+`, `[Ee]\d+`, `\d{3,4}p`
(note: lowercase `p` only, as in the source) match at the head of `cs`? -/
def seriesSplitAt (cs : List Char) : Bool :=
  (match cs with
   | c :: d :: _ => (c = 'S' || c = 's' || c = 'E' || c = 'e') && d.isDigit
   | _ => false) ||
  (let d4 := cs.take 4
   d4.length = 4 && d4.all Char.isDigit &&
     (match cs.drop 4 with
      | c :: _ => c = 'p'
      | [] => false)) ||
  (let d3 := cs.take 3
   d3.length = 3 && d3.all Char.isDigit &&
     (match cs.drop 3 with
      | c :: _ => c = 'p'
      | [] => false))

/-- `re.split(r'[Ss]\d+|[Ee]\d+|\d{3,4}p', text)[0]`: the text before the
leftmost match of the alternation (the whole text when nothing matches). -/
def seriesTextBefore : List Char → List Char
  | [] => []
  | c :: rest => if seriesSplitAt (c :: rest) then [] else c :: seriesTextBefore rest

/-- `re.sub(r'[\[\]$$$$]', '', text)`: the character class contains
`[`, `]` and `$`; every occurrence is deleted. -/
def removeBracketDollar (cs : List Char) : List Char :=
  cs.filter (fun c => !(c = '[' || c = ']' || c = '$'))

/-- Python `str.strip()` on the ASCII whitespace the captions contain. -/
def pyStrip (cs : List Char) : List Char :=
  ((cs.dropWhile isPySpace).reverse.dropWhile isPySpace).reverse

/-- Python `str.zfill(2)` on a captured digit run. -/
def zfill2 (ds : List Char) : String :=
  String.mk (List.replicate (2 - ds.length) '0' ++ ds)

/-- The `info` dict built by `extract_info_from_caption`. -/
structure CaptionInfo where
  series : Option String
  season : Option String
  episode : Option String
  quality : Option String
deriving DecidableEq, Repr

/-- `extract_info_from_caption(caption)` (collection.py lines 25-68).
`None` is modelled by `none`; the final line
`return info if info["episode"] else None` tests Python truthiness of
the episode string, hence the `e = ""` check. -/
def extract_info_from_caption (caption : String) : Option CaptionInfo :=
  if caption = "" then none
  else
    let cs := caption.toList
    let seasonM := searchMarker 'S' 's' ("eason".toList) cs
    let episodeM := searchMarker 'E' 'e' ("pisode".toList) cs
    let qualityM := searchQuality cs
    let season := seasonM.map (fun m => zfill2 m.2)
    let episode := episodeM.map (fun m => zfill2 m.2)
    let quality := qualityM.map (fun ds => String.mk ds ++ "p")
    let series : Option String :=
      match seasonM with
      | some m => some (String.mk (pyStrip (removeBracketDollar (pyStrip m.1))))
      | none =>
        let t := pyStrip (removeBracketDollar (pyStrip (seriesTextBefore cs)))
        if t = [] then none else some (String.mk t)
    match episode with
    | none => none
    | some e => if e = "" then none else some ⟨series, season, episode, quality⟩

/-- `format_caption`'s regex `\.(?:mp4|mkv)$` with `re.IGNORECASE`,
tested on the final four characters. -/
def extMatch (cs : List Char) : Bool :=
  match cs with
  | [a, b, c, d] =>
    a = '.' && (b = 'm' || b = 'M') &&
      ((c = 'p' || c = 'P') && d = '4' || (c = 'k' || c = 'K') && (d = 'v' || d = 'V'))
  | _ => false

/-- `re.sub(r'\.(?:mp4|mkv)$', '', cs, flags=re.IGNORECASE)`.  Python's
`$` matches at the end of the string and also just before a newline that
is the string's final character, so the extension is stripped from the
very end or from just before one trailing `'\n'` (at most one of the two
windows can match, since an extension never ends in `'\n'`). -/
def stripExt (cs : List Char) : List Char :=
  if extMatch (cs.drop (cs.length - 4)) then cs.take (cs.length - 4)
  else if cs.getLast? = some '\n' ∧
      extMatch (cs.dropLast.drop (cs.dropLast.length - 4)) = true then
    cs.dropLast.take (cs.dropLast.length - 4) ++ ['\n']
  else cs

/-- `format_caption(caption)` (collection.py lines 70-83): strip one
trailing `.mp4`/`.mkv` and wrap in `**`; the empty string (falsy) is
returned unchanged. -/
def format_caption (caption : String) : String :=
  if caption = "" then caption
  else "**" ++ String.mk (stripExt caption.toList) ++ "**"

example :
    extract_info_from_caption "Breaking Bad S01E03 720p" =
      some ⟨some "Breaking Bad", some "01", some "03", some "720p"⟩ := by decide

example : extract_info_from_caption "random text with no markers" = none := by decide

example : format_caption "Show E01.mkv" = "**Show E01**" := by rfl

example : format_caption "x.mp4\n" = "**x\n**" := by rfl

/-- One entry of `collection_state["files"]` (the `file_data` dict built
in `handle_file_collection`). -/
structure FileData where
  message_id : Nat
  chat_id : Int
  series : String
  season : String
  episode : String
  quality : String
  original_caption : Option String
  file_type : String
deriving DecidableEq, Repr

/-- The module-level `collection_state` dict. -/
structure CollectionState where
  active : Bool
  target_channel : Option Int
  files : List FileData
  thumbnail_path : Option String
deriving DecidableEq, Repr

/-- Python `x or default` on an optional string: `None` and the empty
string (the only falsy strings) fall back to the default. -/
def pyOr (x : Option String) (default : String) : String :=
  match x with
  | none => default
  | some s => if s = "" then default else s

/-- The `info` value used by `handle_file_collection`: extraction from
the caption when the caption is truthy, else from the filename
(lines 229-236). -/
def chosenInfo (caption fileName : Option String) : Option CaptionInfo :=
  let fromCaption :=
    match caption with
    | none => none
    | some c => if c = "" then none else extract_info_from_caption c
  match fromCaption with
  | some i => some i
  | none =>
    match fileName with
    | none => none
    | some f => extract_info_from_caption f

/-- `handle_file_collection` (collection.py lines 220-274), restricted to
its effect on `collection_state`: returns the new state and whether the
file was appended.  `fileName` is the media's `file_name` when the
message carries a document/video/audio with one. -/
def handle_file_collection (st : CollectionState) (caption fileName : Option String)
    (messageId : Nat) (chatId : Int) (fileType : String) : CollectionState × Bool :=
  if st.active = false then (st, false)
  else
    match chosenInfo caption fileName with
    | none => (st, false)
    | some i =>
      match i.episode with
      | none => (st, false)
      | some e =>
        if e = "" then (st, false)
        else
          let fd : FileData :=
            { message_id := messageId
              chat_id := chatId
              series := pyOr i.series "Unknown Series"
              season := pyOr i.season "01"
              episode := e
              quality := pyOr i.quality "Unknown"
              original_caption := caption
              file_type := fileType }
          ({ st with files := st.files ++ [fd] }, true)

/-- Python `int()` on the digit strings used as episode codes
(`sorted(episodes.keys(), key=lambda x: int(x))`). -/
def pyInt (s : String) : Nat :=
  s.toList.foldl (fun n c => n * 10 + (c.toNat - 48)) 0

/-- The `quality_order` dict literal of `upload_command` (line 296). -/
def quality_order : List (String × Nat) :=
  [("480p", 1), ("720p", 2), ("1080p", 3), ("2160p", 4), ("Unknown", 0)]

/-- `quality_order.get(q, 0)` — the sort key of line 300. -/
def qualityRank (q : String) : Nat :=
  (quality_order.lookup q).getD 0

/-- `episodes[fd.episode].append(fd)` on an insertion-ordered dict
represented as an association list: append to the existing group, or
add a new key at the end. -/
def addToGroups (gs : List (String × List FileData)) (fd : FileData) :
    List (String × List FileData) :=
  match gs with
  | [] => [(fd.episode, [fd])]
  | (k, v) :: rest =>
    if k = fd.episode then (k, v ++ [fd]) :: rest else (k, v) :: addToGroups rest fd

/-- The `episodes = defaultdict(list); for f in files: episodes[f["episode"]].append(f)`
loop (lines 290-292); key order is first-occurrence order, as for a
Python dict. -/
def groupFiles (files : List FileData) : List (String × List FileData) :=
  files.foldl addToGroups []

/-- The episode ordering and within-episode quality sort of
`upload_command` (lines 294-301), packaged as the ordered group list the
delivery loop iterates over.  Python's `sorted` is a stable sort, and
`List.insertionSort` with a `≤`-shaped key comparison is stable in
exactly the same sense. -/
def organize (files : List FileData) : List (String × List FileData) :=
  let gs := groupFiles files
  (List.insertionSort (fun a b => pyInt a ≤ pyInt b) (gs.map Prod.fst)).map
    (fun k =>
      (k, List.insertionSort (fun a b => qualityRank a.quality ≤ qualityRank b.quality)
        ((gs.lookup k).getD [])))

/-- Result of one delivery attempt by the chat client: success, a
`FloodWait` exception carrying a wait duration, or any other exception. -/
inductive Outcome where
  | ok
  | floodWait (seconds : Nat)
  | failure (msg : String)
deriving DecidableEq, Repr

def isOk : Outcome → Bool
  | .ok => true
  | _ => false

/-- Observable steps of `upload_command`, in execution order. -/
inductive Event where
  | announce (episodeNum : Nat)
  | deliver (fd : FileData) (ok : Bool)
  | sticker
  | reset
deriving DecidableEq, Repr

/-- The final `Upload complete!` report of `upload_command`. -/
structure Report where
  episodes : Nat
  delivered : Nat
  failed : Nat
deriving DecidableEq, Repr

/-- The inner `for file_data in episode_files` loop (lines 329-381):
each file is attempted exactly once; `except Exception` covers `FloodWait`
as well, so every non-`ok` outcome increments `failed` and the loop moves
on.  Returns (events, uploaded, failed). -/
def uploadEpisode (deliver : FileData → Outcome) : List FileData → List Event × Nat × Nat
  | [] => ([], 0, 0)
  | fd :: fds =>
    let ok := isOk (deliver fd)
    let rest := uploadEpisode deliver fds
    (Event.deliver fd ok :: rest.1,
      (if ok then 1 else 0) + rest.2.1,
      (if ok then 0 else 1) + rest.2.2)

/-- The outer `for episode_num in sorted_episodes` loop (lines 317-397):
announce the episode, deliver its files, send the divider sticker. -/
def runGroups (deliver : FileData → Outcome) :
    List (String × List FileData) → List Event × Nat × Nat
  | [] => ([], 0, 0)
  | g :: gs =>
    let ep := uploadEpisode deliver g.2
    let rest := runGroups deliver gs
    (Event.announce (pyInt g.1) :: ep.1 ++ [Event.sticker] ++ rest.1,
      ep.2.1 + rest.2.1, ep.2.2 + rest.2.2)

/-- `upload_command` (collection.py lines 277-409) as a state transformer.
Returns (new state, event trace, report); the report is `none` on the two
early-return error paths ("Collection mode is not active!", "No files
collected yet!").

`addedDuringLoop` models the items that the cooperatively scheduled
`handle_file_collection` appends to the shared `collection_state["files"]`
list while the delivery loop is suspended at one of its `await` points:
the grouping was computed from the pre-loop list before the first
suspension, and lines 400-401 assign `active = False` and a fresh empty
list after the loop, so those items influence neither the delivered
groups nor the final state — which is exactly what the parameter's
absence from the right-hand side expresses. -/
def upload_command (deliver : FileData → Outcome) (st : CollectionState)
    (addedDuringLoop : List FileData) : CollectionState × List Event × Option Report :=
  if st.active = false then (st, [], none)
  else if st.files = [] then (st, [], none)
  else
    let groups := organize st.files
    let run := runGroups deliver groups
    ({ st with active := false, files := [] },
      run.1 ++ [Event.reset],
      some ⟨groups.length, run.2.1, run.2.2⟩)

def isResetEvent : Event → Bool
  | .reset => true
  | _ => false

def isDeliverEvent : Event → Bool
  | .deliver _ _ => true
  | _ => false

/-- "The session is reset before any item is delivered": no deliver event
occurs before the first reset event of the trace. -/
def resetPrecedesDeliveries (evs : List Event) : Bool :=
  (evs.takeWhile (fun e => !isResetEvent e)).all (fun e => !isDeliverEvent e)

/-! ### Sorting helpers: `List.insertionSort` with a `≤`-shaped numeric key
is sorted and stable in exactly Python's `sorted(key=...)` sense. -/

theorem pairwise_key_insertionSort {α : Type} (key : α → Nat) (l : List α) :
    (List.insertionSort (fun a b => key a ≤ key b) l).Pairwise
      (fun a b => key a ≤ key b) := by
  haveI : IsTotal α (fun a b => key a ≤ key b) := ⟨fun a b => Nat.le_total _ _⟩
  haveI : IsTrans α (fun a b => key a ≤ key b) := ⟨fun _ _ _ hab hbc => Nat.le_trans hab hbc⟩
  exact List.sorted_insertionSort _ l

theorem orderedInsert_filter_key {α : Type} (key : α → Nat) (a : α) (l : List α) (n : Nat) :
    (List.orderedInsert (fun x y => key x ≤ key y) a l).filter (fun x => key x == n) =
      if key a == n then a :: l.filter (fun x => key x == n)
      else l.filter (fun x => key x == n) := by
  induction l with
  | nil =>
    by_cases h : key a = n
    · have hb : (key a == n) = true := beq_iff_eq.mpr h
      simp [List.orderedInsert, hb, h]
    · have hb : (key a == n) = false := beq_eq_false_iff_ne.mpr h
      simp [List.orderedInsert, hb, h]
  | cons b t ih =>
    rw [List.orderedInsert]
    by_cases hab : key a ≤ key b
    · rw [if_pos hab]
      simp only [List.filter_cons]
    · rw [if_neg hab]
      by_cases ha : key a = n
      · have hbn : (key b == n) = false := beq_eq_false_iff_ne.mpr (by omega)
        have han : (key a == n) = true := beq_iff_eq.mpr ha
        simp [List.filter_cons, ih, hbn, han]
      · have han : (key a == n) = false := beq_eq_false_iff_ne.mpr ha
        simp [List.filter_cons, ih, han]

theorem insertionSort_filter_key {α : Type} (key : α → Nat) (l : List α) (n : Nat) :
    (List.insertionSort (fun a b => key a ≤ key b) l).filter (fun x => key x == n) =
      l.filter (fun x => key x == n) := by
  induction l with
  | nil => rfl
  | cons a t ih =>
    rw [List.insertionSort, orderedInsert_filter_key, ih, List.filter_cons]

/-! ### Structure of `groupFiles`: insertion-ordered grouping by episode. -/

theorem addToGroups_lookup (gs : List (String × List FileData)) (fd : FileData) (k : String) :
    (((addToGroups gs fd).lookup k).getD []) =
      ((gs.lookup k).getD []) ++ (if fd.episode = k then [fd] else []) := by
  induction gs with
  | nil =>
    by_cases h : fd.episode = k
    · have hb : (k == fd.episode) = true := beq_iff_eq.mpr h.symm
      simp [addToGroups, List.lookup, hb, h]
    · have hb : (k == fd.episode) = false :=
        beq_eq_false_iff_ne.mpr (fun h' => h h'.symm)
      simp [addToGroups, List.lookup, hb, h]
  | cons p rest ih =>
    obtain ⟨k', v⟩ := p
    by_cases h1 : k' = fd.episode
    · rw [addToGroups, if_pos h1]
      by_cases h2 : k = k'
      · have hb : (k == k') = true := beq_iff_eq.mpr h2
        have h3 : fd.episode = k := by rw [← h1, h2]
        simp [List.lookup, hb, h3]
      · have hb : (k == k') = false := beq_eq_false_iff_ne.mpr h2
        have h3 : ¬ (fd.episode = k) := by
          rw [← h1]
          exact fun h => h2 h.symm
        simp [List.lookup, hb, h3]
    · rw [addToGroups, if_neg h1]
      by_cases h2 : k = k'
      · have hb : (k == k') = true := beq_iff_eq.mpr h2
        have h3 : ¬ (fd.episode = k) := by
          intro h
          apply h1
          rw [← h2]
          exact h.symm
        simp [List.lookup, hb, h3]
      · have hb : (k == k') = false := beq_eq_false_iff_ne.mpr h2
        simp [List.lookup, hb, ih]

theorem foldl_addToGroups_lookup (l : List FileData) :
    ∀ (gs : List (String × List FileData)) (k : String),
      (((l.foldl addToGroups gs).lookup k).getD []) =
        ((gs.lookup k).getD []) ++ l.filter (fun fd => fd.episode == k) := by
  induction l with
  | nil => intro gs k; simp
  | cons fd t ih =>
    intro gs k
    rw [List.foldl_cons, ih, addToGroups_lookup, List.filter_cons]
    by_cases h : fd.episode = k
    · have hb : (fd.episode == k) = true := beq_iff_eq.mpr h
      simp [h, hb, List.append_assoc]
    · have hb : (fd.episode == k) = false := beq_eq_false_iff_ne.mpr h
      simp [h, hb]

theorem groupFiles_lookup (files : List FileData) (k : String) :
    (((groupFiles files).lookup k).getD []) =
      files.filter (fun fd => fd.episode == k) := by
  have h := foldl_addToGroups_lookup files [] k
  simpa [groupFiles] using h

theorem addToGroups_keys (gs : List (String × List FileData)) (fd : FileData) :
    (addToGroups gs fd).map Prod.fst =
      if fd.episode ∈ gs.map Prod.fst then gs.map Prod.fst
      else gs.map Prod.fst ++ [fd.episode] := by
  induction gs with
  | nil => simp [addToGroups]
  | cons p rest ih =>
    obtain ⟨k', v⟩ := p
    by_cases h : k' = fd.episode
    · simp [addToGroups, h]
    · rw [addToGroups, if_neg h]
      have h' : ¬ (fd.episode = k') := fun h' => h h'.symm
      by_cases h2 : fd.episode ∈ rest.map Prod.fst <;>
        simp [h2, ih, h']

theorem foldl_addToGroups_keys_nodup (l : List FileData) :
    ∀ gs : List (String × List FileData),
      (gs.map Prod.fst).Nodup → ((l.foldl addToGroups gs).map Prod.fst).Nodup := by
  induction l with
  | nil => intro gs h; simpa using h
  | cons fd t ih =>
    intro gs h
    rw [List.foldl_cons]
    apply ih
    rw [addToGroups_keys]
    by_cases hm : fd.episode ∈ gs.map Prod.fst
    · simpa [hm] using h
    · rw [if_neg hm]
      exact List.Nodup.append h (List.nodup_singleton _)
        (List.disjoint_singleton.mpr hm)

theorem groupFiles_keys_nodup (files : List FileData) :
    ((groupFiles files).map Prod.fst).Nodup :=
  foldl_addToGroups_keys_nodup files [] (by simp)

theorem foldl_addToGroups_keys_mem (l : List FileData) :
    ∀ gs k, k ∈ (l.foldl addToGroups gs).map Prod.fst →
      k ∈ gs.map Prod.fst ∨ ∃ fd ∈ l, fd.episode = k := by
  induction l with
  | nil => intro gs k h; exact Or.inl (by simpa using h)
  | cons fd t ih =>
    intro gs k h
    rw [List.foldl_cons] at h
    rcases ih _ k h with h' | ⟨fd', hm, he⟩
    · rw [addToGroups_keys] at h'
      by_cases hm : fd.episode ∈ gs.map Prod.fst
      · rw [if_pos hm] at h'
        exact Or.inl h'
      · rw [if_neg hm] at h'
        rcases List.mem_append.mp h' with h'' | h''
        · exact Or.inl h''
        · exact Or.inr ⟨fd, List.mem_cons_self _ _, (List.mem_singleton.mp h'').symm⟩
    · exact Or.inr ⟨fd', List.mem_cons_of_mem _ hm, he⟩

/-! ### Structure of `organize`. -/

theorem organize_keys (files : List FileData) :
    (organize files).map Prod.fst =
      List.insertionSort (fun a b => pyInt a ≤ pyInt b)
        ((groupFiles files).map Prod.fst) := by
  simp only [organize, List.map_map]
  exact List.map_id _

theorem organize_mem_elim (files : List FileData) (g : String × List FileData)
    (hg : g ∈ organize files) :
    g.1 ∈ (groupFiles files).map Prod.fst ∧
      g.2 = List.insertionSort (fun a b => qualityRank a.quality ≤ qualityRank b.quality)
        (files.filter (fun fd => fd.episode == g.1)) := by
  simp only [organize] at hg
  rcases List.mem_map.mp hg with ⟨k, hk, rfl⟩
  refine ⟨?_, ?_⟩
  · exact (List.perm_insertionSort (fun a b => pyInt a ≤ pyInt b)
      ((groupFiles files).map Prod.fst)).mem_iff.mp hk
  · show List.insertionSort (fun a b => qualityRank a.quality ≤ qualityRank b.quality)
        ((List.lookup k (groupFiles files)).getD []) =
      List.insertionSort (fun a b => qualityRank a.quality ≤ qualityRank b.quality)
        (files.filter (fun fd => fd.episode == k))
    rw [groupFiles_lookup]

/-! ## Claims -/

/-- C8: extraction applied to `"Breaking Bad S01E03 720p"` returns series
`"Breaking Bad"`, season `"01"`, episode `"03"` and quality `"720p"`. -/
theorem extract_breaking_bad :
    extract_info_from_caption "Breaking Bad S01E03 720p" =
      some ⟨some "Breaking Bad", some "01", some "03", some "720p"⟩ := by decide

/-- C1: the delivery loop of `upload_command` has no rate-limit handling —
`FloodWait` is caught by the generic `except Exception`, so with a single
collected item whose delivery raises `FloodWait(5)` the run ends with
`uploaded = 0, failed = 1`, the item is attempted exactly once (one
deliver event), and no wait/retry happens.  This contradicts the claimed
wait-and-retry policy (the unused `FloodWait` import on line 7 signals the
intended behaviour). -/
theorem floodwait_counted_as_failure :
    upload_command (fun _ => Outcome.floodWait 5)
      ⟨true, none, [⟨1, 5, "X", "01", "03", "720p", some "cap", "video"⟩], none⟩ [] =
    (⟨false, none, [], none⟩,
     [Event.announce 3,
      Event.deliver ⟨1, 5, "X", "01", "03", "720p", some "cap", "video"⟩ false,
      Event.sticker, Event.reset],
     some ⟨1, 0, 1⟩) := by decide

/-- C2 counterexample: on a session holding one item, the trace of
`upload_command` delivers the item **before** the session reset (the reset
of lines 399-401 runs only after the whole loop), refuting
"resets the session … before any item is delivered". -/
theorem reset_not_before_delivery_cex :
    resetPrecedesDeliveries
      (upload_command (fun _ => Outcome.ok)
        ⟨true, none, [⟨1, 5, "X", "01", "03", "720p", some "cap", "video"⟩], none⟩
        []).2.1 = false := by decide

/-- C6 counterexample: `upload_command` on an active session with zero
collected items returns early ("No files collected yet!"): no report is
produced and the state is unchanged — still active — refuting
"report with delivered=0 and failed=0, and the session is reset". -/
theorem upload_empty_cex :
    upload_command (fun _ => Outcome.ok) ⟨true, none, [], none⟩ [] =
      (⟨true, none, [], none⟩, [], none) ∧
    (⟨true, none, [], none⟩ : CollectionState).active = true := by decide

/-- C6 amended: triggering a delivery run on an active session with zero
collected items is rejected: no delivery happens, no report is produced,
and the session state is unchanged (in particular it stays active). -/
theorem upload_empty_rejected (deliver : FileData → Outcome) (st : CollectionState)
    (added : List FileData) (hact : st.active = true) (hf : st.files = []) :
    upload_command deliver st added = (st, [], none) := by
  unfold upload_command
  rw [hact]
  simp [hf]

theorem upload_empty_rejected_witness :
    upload_command (fun _ => Outcome.ok) ⟨true, none, [], none⟩ [] =
      (⟨true, none, [], none⟩, [], none) :=
  upload_empty_rejected (fun _ => Outcome.ok) ⟨true, none, [], none⟩ [] rfl rfl

/-- C3 counterexample: the extractor zero-pads but never truncates, so the
distinct episode codes `"002"` (from a caption like `"E002"`) and `"02"`
(from `"E2"`) can coexist; `organize` then produces two groups with equal
numeric value 2, so the group sequence is not strictly increasing in
numeric episode value. -/
theorem organize_not_strictly_increasing_cex :
    (organize [⟨1, 5, "X", "01", "002", "720p", some "c", "video"⟩,
               ⟨2, 5, "X", "01", "02", "1080p", some "c", "video"⟩]).map
        (fun g => pyInt g.1) = [2, 2] ∧
    ¬ ([2, 2].Pairwise (fun a b => a < b)) := by decide

/-- C4 counterexample: the `quality_order` table maps `"2160p"` to 4 (not
the claimed 5) and contains no `"1440p"` entry (rank 0 by default, not the
claimed 4); and the extractor does not recognize `4k` — on
`"Show E01 4k"` the extracted quality is `none`. -/
theorem quality_table_cex :
    qualityRank "1440p" = 0 ∧ qualityRank "1440p" ≠ 4 ∧
    qualityRank "2160p" = 4 ∧ qualityRank "2160p" ≠ 5 ∧
    extract_info_from_caption "Show E01 4k" =
      some ⟨some "Show", none, some "01", none⟩ := by decide

/-- Lookup default of the `quality_order` dict: any key other than the
five entries gets rank 0 (`dict.get(..., 0)`). -/
theorem qualityRank_default (q : String)
    (h : q ∉ ["480p", "720p", "1080p", "2160p", "Unknown"]) : qualityRank q = 0 := by
  simp only [List.mem_cons, not_or] at h
  obtain ⟨h1, h2, h3, h4, h5, _⟩ := h
  have b1 : (q == "480p") = false := beq_eq_false_iff_ne.mpr h1
  have b2 : (q == "720p") = false := beq_eq_false_iff_ne.mpr h2
  have b3 : (q == "1080p") = false := beq_eq_false_iff_ne.mpr h3
  have b4 : (q == "2160p") = false := beq_eq_false_iff_ne.mpr h4
  have b5 : (q == "Unknown") = false := beq_eq_false_iff_ne.mpr h5
  simp [qualityRank, quality_order, List.lookup, b1, b2, b3, b4, b5]

/-- Digits captured by the quality pattern are three or four digit chars. -/
theorem matchQualityAt_shape (cs ds : List Char) (h : matchQualityAt cs = some ds) :
    ds.all Char.isDigit = true ∧ (ds.length = 3 ∨ ds.length = 4) := by
  cases hd4 : cs.drop 4 with
  | nil =>
    cases hd3 : cs.drop 3 with
    | nil => simp [matchQualityAt, hd4, hd3] at h
    | cons c3 t3 =>
      simp only [matchQualityAt, hd4, hd3, Bool.and_false, Bool.false_eq_true,
        if_false] at h
      split at h
      · rename_i hg
        injection h with h
        subst h
        simp only [Bool.and_eq_true, decide_eq_true_eq] at hg
        exact ⟨hg.1.2, Or.inl hg.1.1⟩
      · exact absurd h (by simp)
  | cons c4 t4 =>
    cases hd3 : cs.drop 3 with
    | nil =>
      simp only [matchQualityAt, hd4, hd3, Bool.and_false, Bool.false_eq_true,
        if_false] at h
      split at h
      · rename_i hg
        injection h with h
        subst h
        simp only [Bool.and_eq_true, decide_eq_true_eq] at hg
        exact ⟨hg.1.2, Or.inr hg.1.1⟩
      · exact absurd h (by simp)
    | cons c3 t3 =>
      simp only [matchQualityAt, hd4, hd3] at h
      split at h
      · rename_i hg
        injection h with h
        subst h
        simp only [Bool.and_eq_true, decide_eq_true_eq] at hg
        exact ⟨hg.1.2, Or.inr hg.1.1⟩
      · split at h
        · rename_i hg
          injection h with h
          subst h
          simp only [Bool.and_eq_true, decide_eq_true_eq] at hg
          exact ⟨hg.1.2, Or.inl hg.1.1⟩
        · exact absurd h (by simp)

theorem searchQuality_shape (cs ds : List Char) (h : searchQuality cs = some ds) :
    ds.all Char.isDigit = true ∧ (ds.length = 3 ∨ ds.length = 4) := by
  induction cs with
  | nil => simp [searchQuality] at h
  | cons c rest ih =>
    rw [searchQuality] at h
    cases hm : matchQualityAt (c :: rest) with
    | some d =>
      rw [hm] at h
      injection h with h
      subst h
      exact matchQualityAt_shape _ _ hm
    | none =>
      rw [hm] at h
      exact ih h

/-- C5: for every input text, if the episode pattern
`[Ee](?:pisode)?[\s\.]?(\d+)` finds no match then extraction returns
`none` (NoMatch) regardless of season/quality/series; and every returned
info record has its episode field present. -/
theorem extract_requires_episode (t : String) :
    (searchMarker 'E' 'e' ("pisode".toList) t.toList = none →
      extract_info_from_caption t = none) ∧
    (∀ i : CaptionInfo, extract_info_from_caption t = some i →
      i.episode.isSome = true) := by
  constructor
  · intro hE
    have hE' : searchMarker 'E' 'e' ['p', 'i', 's', 'o', 'd', 'e'] t.data = none := hE
    by_cases ht : t = ""
    · simp [extract_info_from_caption, ht]
    · simp [extract_info_from_caption, ht, hE']
  · intro i hi
    by_cases ht : t = ""
    · simp [extract_info_from_caption, ht] at hi
    · cases hE : searchMarker 'E' 'e' ("pisode".toList) t.toList with
      | none =>
        have hE' : searchMarker 'E' 'e' ['p', 'i', 's', 'o', 'd', 'e'] t.data = none := hE
        simp [extract_info_from_caption, ht, hE'] at hi
      | some m =>
        have hE' : searchMarker 'E' 'e' ['p', 'i', 's', 'o', 'd', 'e'] t.data = some m := hE
        simp only [extract_info_from_caption, ht, if_false, hE,
          Option.map_some'] at hi
        split at hi
        · exact absurd hi (by simp)
        · injection hi with hi
          subst hi
          rfl

theorem extract_requires_episode_witness :
    extract_info_from_caption "xyz" = none ∧
    (CaptionInfo.mk none none (some "05") none).episode.isSome = true :=
  ⟨(extract_requires_episode "xyz").1 (by decide),
   (extract_requires_episode "E5").2 ⟨none, none, some "05", none⟩ (by decide)⟩

/-- C4 amended: the within-episode sort uses exactly the table
`480p=1, 720p=2, 1080p=3, 2160p=4, Unknown=0`, every other quality string
(including `1440p` and `4k`) getting the default rank 0; and the
extractor's recognized quality tokens are exactly a three-or-four-digit
run followed by `p`/`P` (normalized to a lowercase-`p` suffix), so `4k`
is not recognized. -/
theorem quality_table_spec :
    qualityRank "480p" = 1 ∧ qualityRank "720p" = 2 ∧ qualityRank "1080p" = 3 ∧
    qualityRank "2160p" = 4 ∧ qualityRank "Unknown" = 0 ∧
    (∀ q : String, q ∉ ["480p", "720p", "1080p", "2160p", "Unknown"] →
      qualityRank q = 0) ∧
    (∀ (t : String) (i : CaptionInfo) (q : String),
      extract_info_from_caption t = some i → i.quality = some q →
      ∃ ds : List Char, q = String.mk ds ++ "p" ∧ ds.all Char.isDigit = true ∧
        (ds.length = 3 ∨ ds.length = 4)) := by
  refine ⟨by decide, by decide, by decide, by decide, by decide,
    qualityRank_default, ?_⟩
  intro t i q hi hq
  by_cases ht : t = ""
  · simp [extract_info_from_caption, ht] at hi
  · cases hE : searchMarker 'E' 'e' ("pisode".toList) t.toList with
    | none =>
      have hE' : searchMarker 'E' 'e' ['p', 'i', 's', 'o', 'd', 'e'] t.data = none := hE
      simp [extract_info_from_caption, ht, hE'] at hi
    | some m =>
      have hE' : searchMarker 'E' 'e' ['p', 'i', 's', 'o', 'd', 'e'] t.data = some m := hE
      simp only [extract_info_from_caption, ht, if_false, hE,
        Option.map_some'] at hi
      split at hi
      · exact absurd hi (by simp)
      · injection hi with hi
        subst hi
        simp only [Option.map_eq_some'] at hq
        obtain ⟨ds, hQ, hq⟩ := hq
        exact ⟨ds, hq.symm, (searchQuality_shape _ _ hQ).1,
          (searchQuality_shape _ _ hQ).2⟩

/-- C10: when a file is accepted and the extraction used for it found no
season, the stored `season` is the default `"01"` (`info["season"] or "01"`);
and every item `handle_file_collection` adds has a non-empty season. -/
theorem season_defaults_nonempty :
    (∀ (st : CollectionState) (cap fn : Option String) (mid : Nat) (cid : Int)
        (ft : String) (i : CaptionInfo) (fd : FileData),
        chosenInfo cap fn = some i → i.season = none →
        (handle_file_collection st cap fn mid cid ft).1.files = st.files ++ [fd] →
        fd.season = "01") ∧
    (∀ (st : CollectionState) (cap fn : Option String) (mid : Nat) (cid : Int)
        (ft : String) (fd : FileData),
        fd ∈ (handle_file_collection st cap fn mid cid ft).1.files →
        fd ∈ st.files ∨ fd.season ≠ "") := by
  constructor
  · intro st cap fn mid cid ft i fd hci hs hfiles
    unfold handle_file_collection at hfiles
    by_cases hact : st.active = false
    · rw [if_pos hact] at hfiles
      exact absurd (congrArg List.length hfiles) (by simp)
    · rw [if_neg hact] at hfiles
      simp only [hci] at hfiles
      cases hep : i.episode with
      | none =>
        simp only [hep] at hfiles
        exact absurd (congrArg List.length hfiles) (by simp)
      | some e =>
        simp only [hep] at hfiles
        by_cases he : e = ""
        · rw [if_pos he] at hfiles
          exact absurd (congrArg List.length hfiles) (by simp)
        · rw [if_neg he] at hfiles
          simp only [] at hfiles
          have h3 := List.append_cancel_left hfiles
          injection h3 with h4 _
          rw [← h4]
          simp [pyOr, hs]
  · intro st cap fn mid cid ft fd hmem
    unfold handle_file_collection at hmem
    by_cases hact : st.active = false
    · rw [if_pos hact] at hmem
      exact Or.inl hmem
    · rw [if_neg hact] at hmem
      cases hci : chosenInfo cap fn with
      | none =>
        simp only [hci] at hmem
        exact Or.inl hmem
      | some i =>
        simp only [hci] at hmem
        cases hep : i.episode with
        | none =>
          simp only [hep] at hmem
          exact Or.inl hmem
        | some e =>
          simp only [hep] at hmem
          by_cases he : e = ""
          · rw [if_pos he] at hmem
            exact Or.inl hmem
          · rw [if_neg he] at hmem
            simp only [] at hmem
            rcases List.mem_append.mp hmem with h | h
            · exact Or.inl h
            · refine Or.inr ?_
              have hfd := List.mem_singleton.mp h
              rw [hfd]
              cases i.season with
              | none => simp [pyOr]
              | some s =>
                by_cases hs : s = "" <;> simp [pyOr, hs]

theorem season_defaults_nonempty_witness :
    (⟨7, 9, "Unknown Series", "01", "03", "Unknown", some "E03", "video"⟩ : FileData).season
        = "01" ∧
    ((⟨7, 9, "Unknown Series", "01", "03", "Unknown", some "E03", "video"⟩ : FileData) ∈
        ([] : List FileData) ∨
      (⟨7, 9, "Unknown Series", "01", "03", "Unknown", some "E03", "video"⟩ :
        FileData).season ≠ "") :=
  ⟨season_defaults_nonempty.1 ⟨true, none, [], none⟩ (some "E03") none 7 9 "video"
      ⟨none, none, some "03", none⟩
      ⟨7, 9, "Unknown Series", "01", "03", "Unknown", some "E03", "video"⟩
      (by decide) rfl (by decide),
   season_defaults_nonempty.2 ⟨true, none, [], none⟩ (some "E03") none 7 9 "video"
      ⟨7, 9, "Unknown Series", "01", "03", "Unknown", some "E03", "video"⟩ (by decide)⟩

/-- C9: any quality string outside the `quality_order` table (for example
`"1440p"`, which the extractor's `(\d{3,4})[pP]` pattern can produce) gets
rank 0 via `dict.get(..., 0)` and therefore sorts before every `480p`
(rank 1) item of the same episode group. -/
theorem unknown_quality_rank_zero_sorts_first :
    (∀ q : String, q ∉ ["480p", "720p", "1080p", "2160p", "Unknown"] →
      qualityRank q = 0) ∧
    (∀ (files : List FileData) (g : String × List FileData), g ∈ organize files →
      ∀ (i j : Fin g.2.length),
        (g.2.get i).quality ∉ ["480p", "720p", "1080p", "2160p", "Unknown"] →
        (g.2.get j).quality = "480p" → (i : Nat) < (j : Nat)) := by
  refine ⟨qualityRank_default, ?_⟩
  intro files g hg i j hqi hqj
  have hsorted : g.2.Pairwise
      (fun a b => qualityRank a.quality ≤ qualityRank b.quality) := by
    rw [(organize_mem_elim files g hg).2]
    exact pairwise_key_insertionSort (fun fd : FileData => qualityRank fd.quality) _
  have hpair := List.pairwise_iff_get.mp hsorted
  have hri : qualityRank (g.2.get i).quality = 0 := qualityRank_default _ hqi
  have hrj : qualityRank (g.2.get j).quality = 1 := by rw [hqj]; rfl
  rcases Nat.lt_trichotomy (i : Nat) (j : Nat) with h | h | h
  · exact h
  · exfalso
    have hij : i = j := Fin.ext h
    rw [hij, hqj] at hqi
    exact hqi (List.mem_cons_self _ _)
  · exfalso
    have hle := hpair j i h
    rw [hri, hrj] at hle
    omega

theorem unknown_quality_rank_zero_sorts_first_witness :
    qualityRank "1440p" = 0 ∧ (0 : Nat) < 1 := by
  constructor
  · exact unknown_quality_rank_zero_sorts_first.1 "1440p" (by decide)
  · exact unknown_quality_rank_zero_sorts_first.2
      [⟨1, 5, "X", "01", "03", "480p", some "c", "video"⟩,
       ⟨2, 5, "X", "01", "03", "1440p", some "c", "video"⟩]
      ("03", [⟨2, 5, "X", "01", "03", "1440p", some "c", "video"⟩,
              ⟨1, 5, "X", "01", "03", "480p", some "c", "video"⟩])
      (by decide) ⟨0, by decide⟩ ⟨1, by decide⟩ (by decide) (by decide)

/-- C3 amended: `organize` orders groups by non-decreasing numeric episode
value — strictly increasing whenever distinct episode codes in the input
have distinct numeric values (so `"02"` still precedes `"10"`); within each
group quality ranks are non-decreasing; and the members of a group with any
fixed quality rank are exactly the input items with that episode and rank,
in their original insertion order (stable sort). -/
theorem organize_ordering (files : List FileData) :
    ((organize files).map (fun g => pyInt g.1)).Pairwise (fun a b => a ≤ b) ∧
    ((∀ fd, fd ∈ files → ∀ fd', fd' ∈ files →
        pyInt fd.episode = pyInt fd'.episode → fd.episode = fd'.episode) →
      ((organize files).map (fun g => pyInt g.1)).Pairwise (fun a b => a < b)) ∧
    (∀ g : String × List FileData, g ∈ organize files →
      g.2.Pairwise (fun a b => qualityRank a.quality ≤ qualityRank b.quality)) ∧
    (∀ g : String × List FileData, g ∈ organize files → ∀ r : Nat,
      g.2.filter (fun fd => qualityRank fd.quality == r) =
        (files.filter (fun fd => fd.episode == g.1)).filter
          (fun fd => qualityRank fd.quality == r)) := by
  have hmapkeys : (organize files).map (fun g => pyInt g.1) =
      (List.insertionSort (fun a b => pyInt a ≤ pyInt b)
        ((groupFiles files).map Prod.fst)).map pyInt := by
    rw [← organize_keys, List.map_map]
    rfl
  refine ⟨?_, ?_, ?_, ?_⟩
  · rw [hmapkeys]
    exact List.pairwise_map.mpr (pairwise_key_insertionSort pyInt _)
  · intro hinj
    rw [hmapkeys]
    refine List.pairwise_map.mpr ?_
    have hnd : (List.insertionSort (fun a b => pyInt a ≤ pyInt b)
        ((groupFiles files).map Prod.fst)).Nodup :=
      ((List.perm_insertionSort _ _).nodup_iff).mpr (groupFiles_keys_nodup files)
    have hle := pairwise_key_insertionSort pyInt ((groupFiles files).map Prod.fst)
    refine (hle.and hnd).imp_of_mem ?_
    intro a b ha hb hab
    have ha' : a ∈ (groupFiles files).map Prod.fst :=
      (List.perm_insertionSort _ _).mem_iff.mp ha
    have hb' : b ∈ (groupFiles files).map Prod.fst :=
      (List.perm_insertionSort _ _).mem_iff.mp hb
    rcases foldl_addToGroups_keys_mem files [] a ha' with hnil | ⟨fda, hma, hea⟩
    · simp at hnil
    rcases foldl_addToGroups_keys_mem files [] b hb' with hnil | ⟨fdb, hmb, heb⟩
    · simp at hnil
    refine Nat.lt_of_le_of_ne hab.1 (fun heq => hab.2 ?_)
    have := hinj fda hma fdb hmb (by rw [hea, heb]; exact heq)
    rw [hea, heb] at this
    exact this
  · intro g hg
    rw [(organize_mem_elim files g hg).2]
    exact pairwise_key_insertionSort (fun fd : FileData => qualityRank fd.quality) _
  · intro g hg r
    rw [(organize_mem_elim files g hg).2]
    exact insertionSort_filter_key (fun fd : FileData => qualityRank fd.quality) _ r

/-- Witness instance: with episodes `"10"` and `"02"` the groups come out
strictly increasing numerically (2 before 10). -/
theorem organize_ordering_witness :
    ((organize [⟨1, 5, "X", "01", "10", "1080p", some "c", "video"⟩,
                ⟨2, 5, "X", "01", "02", "720p", some "c", "video"⟩]).map
        (fun g => pyInt g.1)).Pairwise (fun a b => a < b) :=
  (organize_ordering _).2.1 (by decide)

theorem uploadEpisode_events (deliver : FileData → Outcome) (l : List FileData) :
    ∀ e ∈ (uploadEpisode deliver l).1, ∃ fd b, e = Event.deliver fd b ∧ fd ∈ l := by
  induction l with
  | nil => intro e he; simp [uploadEpisode] at he
  | cons fd t ih =>
    intro e he
    simp only [uploadEpisode] at he
    rcases List.mem_cons.mp he with h | h
    · exact ⟨fd, isOk (deliver fd), h, List.mem_cons_self _ _⟩
    · rcases ih e h with ⟨fd', b, he', hm⟩
      exact ⟨fd', b, he', List.mem_cons_of_mem _ hm⟩

theorem runGroups_events (deliver : FileData → Outcome)
    (gs : List (String × List FileData)) :
    ∀ e ∈ (runGroups deliver gs).1,
      (∃ n, e = Event.announce n) ∨ e = Event.sticker ∨
      (∃ fd b, e = Event.deliver fd b ∧ ∃ g, g ∈ gs ∧ fd ∈ g.2) := by
  induction gs with
  | nil => intro e he; simp [runGroups] at he
  | cons g gs ih =>
    intro e he
    simp only [runGroups] at he
    rcases List.mem_append.mp he with h | h
    · rcases List.mem_append.mp h with h | h
      · rcases List.mem_cons.mp h with h | h
        · exact Or.inl ⟨_, h⟩
        · rcases uploadEpisode_events deliver g.2 e h with ⟨fd, b, he', hm⟩
          exact Or.inr (Or.inr ⟨fd, b, he', g, List.mem_cons_self _ _, hm⟩)
      · exact Or.inr (Or.inl (List.mem_singleton.mp h))
    · rcases ih e h with h | h | ⟨fd, b, he', g', hg', hm⟩
      · exact Or.inl h
      · exact Or.inr (Or.inl h)
      · exact Or.inr (Or.inr ⟨fd, b, he', g', List.mem_cons_of_mem _ hg', hm⟩)

theorem runGroups_no_reset (deliver : FileData → Outcome)
    (gs : List (String × List FileData)) :
    ∀ e ∈ (runGroups deliver gs).1, isResetEvent e = false := by
  intro e he
  rcases runGroups_events deliver gs e he with ⟨n, rfl⟩ | rfl | ⟨fd, b, rfl, _⟩
  · rfl
  · rfl
  · rfl

/-- C2 amended: the delivery run computes its episode grouping from the
session's item list before the first delivery, so items appended to the
shared list while the loop is in flight are never delivered; but the
session is reset to inactive/empty only **after** all deliveries (the
reset is the last event of the trace, never before a delivery), so such
late items are silently discarded by the post-run reset rather than being
excluded by an up-front snapshot-and-reset. -/
theorem upload_reset_after_delivery (deliver : FileData → Outcome)
    (st : CollectionState) (added : List FileData)
    (hact : st.active = true) (hne : st.files ≠ []) :
    (upload_command deliver st added).1.files = [] ∧
    (upload_command deliver st added).1.active = false ∧
    (∀ fd b, Event.deliver fd b ∈ (upload_command deliver st added).2.1 →
      fd ∈ st.files) ∧
    (upload_command deliver st added).2.1.getLast? = some Event.reset ∧
    (∀ e ∈ (upload_command deliver st added).2.1.dropLast,
      isResetEvent e = false) := by
  have hcmd : upload_command deliver st added =
      ({ st with active := false, files := [] },
        (runGroups deliver (organize st.files)).1 ++ [Event.reset],
        some ⟨(organize st.files).length,
          (runGroups deliver (organize st.files)).2.1,
          (runGroups deliver (organize st.files)).2.2⟩) := by
    unfold upload_command
    rw [hact]
    simp [hne]
  rw [hcmd]
  refine ⟨rfl, rfl, ?_, ?_, ?_⟩
  · intro fd b hmem
    rcases List.mem_append.mp hmem with h | h
    · rcases runGroups_events deliver _ _ h with ⟨n, hn⟩ | hs | ⟨fd', b', heq, g, hg, hfd⟩
      · cases hn
      · cases hs
      · injection heq with h1 h2
        subst h1
        have hgrp := (organize_mem_elim st.files g hg).2
        rw [hgrp] at hfd
        have h3 : fd ∈ st.files.filter (fun x => x.episode == g.1) :=
          (List.mem_insertionSort _).mp hfd
        exact List.mem_of_mem_filter h3
    · simp at h
  · exact List.getLast?_concat _
  · rw [List.dropLast_concat]
    exact runGroups_no_reset deliver _

theorem upload_reset_after_delivery_witness :
    (upload_command (fun _ => Outcome.ok)
        ⟨true, none, [⟨1, 5, "X", "01", "03", "720p", some "cap", "video"⟩], none⟩
        [⟨9, 5, "Y", "01", "04", "480p", some "cap2", "video"⟩]).1.files = [] ∧
    (upload_command (fun _ => Outcome.ok)
        ⟨true, none, [⟨1, 5, "X", "01", "03", "720p", some "cap", "video"⟩], none⟩
        [⟨9, 5, "Y", "01", "04", "480p", some "cap2", "video"⟩]).2.1.getLast?
      = some Event.reset :=
  ⟨(upload_reset_after_delivery _ _ _ rfl (by decide)).1,
   (upload_reset_after_delivery _ _ _ rfl (by decide)).2.2.2.1⟩

theorem extMatch_last (cs : List Char) (h : extMatch cs = true) :
    ∃ a b c d, cs = [a, b, c, d] ∧ (d = '4' ∨ d = 'v' ∨ d = 'V') := by
  cases cs with
  | nil => simp [extMatch] at h
  | cons a t1 =>
    cases t1 with
    | nil => simp [extMatch] at h
    | cons b t2 =>
      cases t2 with
      | nil => simp [extMatch] at h
      | cons c t3 =>
        cases t3 with
        | nil => simp [extMatch] at h
        | cons d t4 =>
          cases t4 with
          | cons e t5 => simp [extMatch] at h
          | nil =>
            refine ⟨a, b, c, d, rfl, ?_⟩
            simp only [extMatch, Bool.and_eq_true, Bool.or_eq_true,
              decide_eq_true_eq] at h
            rcases h.2 with ⟨_, hd⟩ | ⟨_, hd⟩
            · exact Or.inl hd
            · rcases hd with hd | hd
              · exact Or.inr (Or.inl hd)
              · exact Or.inr (Or.inr hd)

theorem extMatch_head (cs : List Char) (h : extMatch cs = true) :
    ∃ r, cs = '.' :: r := by
  obtain ⟨a, b, c, d, hcs, _⟩ := extMatch_last cs h
  subst hcs
  simp only [extMatch, Bool.and_eq_true, decide_eq_true_eq] at h
  exact ⟨[b, c, d], by rw [h.1.1]⟩

/-- A list ending in `'*'` is unchanged by extension stripping: the
extension regex requires a final `4`/`v`/`V`, or a trailing newline for
the before-newline `$` position. -/
theorem stripExt_last_star (l : List Char) (h : l.getLast? = some '*') :
    stripExt l = l := by
  unfold stripExt
  by_cases hm : extMatch (l.drop (l.length - 4)) = true
  · exfalso
    obtain ⟨a, b, c, d, hd, hor⟩ := extMatch_last _ hm
    have h1 : l = l.take (l.length - 4) ++ l.drop (l.length - 4) :=
      (List.take_append_drop _ _).symm
    rw [hd] at h1
    have h2 : l.getLast? = some d := by
      rw [h1, show l.take (l.length - 4) ++ [a, b, c, d] =
        (l.take (l.length - 4) ++ [a, b, c]) ++ [d] by simp]
      exact List.getLast?_concat _
    rw [h] at h2
    injection h2 with h2
    rcases hor with h' | h' | h' <;> rw [h'] at h2 <;> exact absurd h2 (by decide)
  · rw [if_neg hm]
    have hn : ¬ (l.getLast? = some '\n' ∧
        extMatch (l.dropLast.drop (l.dropLast.length - 4)) = true) := by
      intro hc
      have hc1 := hc.1
      rw [h] at hc1
      injection hc1 with hc1
      exact absurd hc1 (by decide)
    rw [if_neg hn]

theorem format_caption_star (s : String) :
    format_caption ("**" ++ s ++ "**") = "**" ++ ("**" ++ s ++ "**") ++ "**" := by
  have hne : ("**" ++ s ++ "**") ≠ "" := by
    intro h
    have h2 := congrArg String.data h
    simp [String.data_append] at h2
  have hlast : ("**" ++ s ++ "**").toList.getLast? = some '*' := by
    show (("**" ++ s ++ "**").data).getLast? = some '*'
    rw [String.data_append, List.getLast?_append]
    rfl
  unfold format_caption
  rw [if_neg hne, stripExt_last_star _ hlast]
  rfl

/-- If the extension window at the very end of `pre ++ tok ++ post`
matches, a dot-free `tok` of length at least 4 cannot reach into it:
the window starts with `'.'`, so `post` carries the whole window. -/
theorem ext_no_overlap (tok pre post : List Char) (hdot : '.' ∉ tok)
    (hlen : 4 ≤ tok.length)
    (hm : extMatch ((pre ++ tok ++ post).drop ((pre ++ tok ++ post).length - 4))
      = true) : 4 ≤ post.length := by
  by_contra hpost
  obtain ⟨r, hr⟩ := extMatch_head _ hm
  have hlen3 : (pre ++ tok ++ post).length - 4 =
      pre.length + (tok.length + post.length - 4) := by
    simp only [List.length_append]
    omega
  rw [hlen3, List.append_assoc, List.drop_append,
    List.drop_append_eq_append_drop] at hr
  have hm0 : tok.length + post.length - 4 - tok.length = 0 := by omega
  rw [hm0, List.drop_zero] at hr
  have hne : tok.drop (tok.length + post.length - 4) ≠ [] := by
    intro hnil
    have hl := congrArg List.length hnil
    simp [List.length_drop] at hl
    omega
  cases hdp : tok.drop (tok.length + post.length - 4) with
  | nil => exact hne hdp
  | cons y ys =>
    rw [hdp, List.cons_append] at hr
    injection hr with hy _
    apply hdot
    have hmem : y ∈ tok.drop (tok.length + post.length - 4) := by
      rw [hdp]
      exact List.mem_cons_self _ _
    have hytok := List.drop_subset _ _ hmem
    rw [← hy]
    exact hytok

theorem take_sub (pre tok post : List Char) (h4 : 4 ≤ post.length) :
    (pre ++ tok ++ post).take ((pre ++ tok ++ post).length - 4) =
      pre ++ tok ++ post.take (post.length - 4) := by
  have hlen2 : (pre ++ tok ++ post).length - 4 =
      (pre ++ tok).length + (post.length - 4) := by
    simp only [List.length_append]
    omega
  rw [hlen2, List.take_append]

/-- Extension stripping never destroys an occurrence of a token of
length at least 4 containing neither `'.'` nor `'\n'` (such as `[720p]`
or `[E01]`): each of the two `$` windows starts with `'.'` and the
before-newline window additionally ends just before the final `'\n'`,
so neither can overlap such a token. -/
theorem stripExt_preserves_infix (tok cs : List Char)
    (hdot : '.' ∉ tok) (hnl : '\n' ∉ tok) (hlen : 4 ≤ tok.length)
    (h : tok <:+: cs) : tok <:+: stripExt cs := by
  unfold stripExt
  by_cases hm : extMatch (cs.drop (cs.length - 4)) = true
  · rw [if_pos hm]
    obtain ⟨pre, post, hsplit⟩ := h
    subst hsplit
    have h4 : 4 ≤ post.length := ext_no_overlap tok pre post hdot hlen hm
    refine ⟨pre, post.take (post.length - 4), ?_⟩
    rw [take_sub pre tok post h4]
  · rw [if_neg hm]
    by_cases hn : cs.getLast? = some '\n' ∧
        extMatch (cs.dropLast.drop (cs.dropLast.length - 4)) = true
    · rw [if_pos hn]
      obtain ⟨hlast, hmB⟩ := hn
      obtain ⟨pre, post, hsplit⟩ := h
      cases post with
      | nil =>
        exfalso
        rw [List.append_nil] at hsplit
        have htokne : tok ≠ [] := by
          intro h0
          rw [h0] at hlen
          simp at hlen
        rw [← hsplit, List.getLast?_append,
          List.getLast?_eq_getLast _ htokne, Option.or_some] at hlast
        injection hlast with hg
        have hmem := List.getLast_mem htokne
        rw [hg] at hmem
        exact hnl hmem
      | cons p ps =>
        have hpne : p :: ps ≠ [] := List.cons_ne_nil _ _
        have hplast : (p :: ps).getLast hpne = '\n' := by
          rw [← hsplit, List.getLast?_append,
            List.getLast?_eq_getLast _ hpne, Option.or_some] at hlast
          injection hlast
        obtain ⟨q, hq⟩ : ∃ q, p :: ps = q ++ ['\n'] := by
          refine ⟨(p :: ps).dropLast, ?_⟩
          have hshape := (List.dropLast_concat_getLast hpne).symm
          rw [hplast] at hshape
          exact hshape
        rw [hq] at hsplit
        have h1 : (pre ++ tok ++ q) ++ ['\n'] = cs := by
          rw [← hsplit]
          simp [List.append_assoc]
        have hB : cs.dropLast = pre ++ tok ++ q := by
          rw [← h1, List.dropLast_concat]
        rw [hB] at hmB
        have h4 : 4 ≤ q.length := ext_no_overlap tok pre q hdot hlen hmB
        refine ⟨pre, q.take (q.length - 4) ++ ['\n'], ?_⟩
        rw [hB, take_sub pre tok q h4]
        simp [List.append_assoc]
    · rw [if_neg hn]
      exact h

/-- `format_caption` preserves every occurrence of a token of length at
least 4 that contains neither a dot nor a newline. -/
theorem format_caption_preserves_token (tok : List Char) (t : String)
    (hdot : '.' ∉ tok) (hnl : '\n' ∉ tok) (hlen : 4 ≤ tok.length)
    (hinf : tok <:+: t.toList) : tok <:+: (format_caption t).toList := by
  by_cases ht : t = ""
  · exfalso
    subst ht
    obtain ⟨s1, s2, hh⟩ := hinf
    have h0 : (s1 ++ tok) ++ s2 = ([] : List Char) := hh
    obtain ⟨h01, _⟩ := List.append_eq_nil.mp h0
    obtain ⟨_, htok⟩ := List.append_eq_nil.mp h01
    rw [htok] at hlen
    simp at hlen
  · have h2 : tok <:+: stripExt t.toList :=
      stripExt_preserves_infix tok t.toList hdot hnl hlen hinf
    obtain ⟨s1, s2, hh⟩ := h2
    unfold format_caption
    rw [if_neg ht]
    refine ⟨['*', '*'] ++ s1, s2 ++ ['*', '*'], ?_⟩
    show (['*', '*'] ++ s1) ++ tok ++ (s2 ++ ['*', '*']) =
      ("**" ++ String.mk (stripExt t.toList) ++ "**").data
    rw [String.data_append, String.data_append]
    rw [show ("**".data : List Char) = ['*', '*'] from rfl]
    rw [show (String.mk (stripExt t.toList)).data = stripExt t.toList from rfl]
    rw [← hh]
    simp [List.append_assoc]

/-- C7 counterexample: `format_caption` is not idempotent — each
application wraps the text in another pair of `**` markers. -/
theorem format_caption_not_idempotent_cex :
    format_caption (format_caption "a") ≠ format_caption "a" ∧
    format_caption (format_caption "a") = "****a****" := by decide

/-- C7 amended: `format_caption` is not idempotent — a second application
wraps the first result in one more pair of bold markers — but it never
removes a bracketed quality token such as `[720p]` or a bracketed episode
token such as `[E01]` from the text (a bracketed token: `[`, then at
least two characters none of which is a dot or a newline, then `]`). -/
theorem format_caption_props :
    (∀ t : String, t ≠ "" →
      format_caption (format_caption t) = "**" ++ format_caption t ++ "**") ∧
    (∀ (inner : List Char) (t : String), '.' ∉ inner → '\n' ∉ inner →
      2 ≤ inner.length →
      ('[' :: inner ++ [']']) <:+: t.toList →
      ('[' :: inner ++ [']']) <:+: (format_caption t).toList) := by
  constructor
  · intro t ht
    have h1 : format_caption t = "**" ++ String.mk (stripExt t.toList) ++ "**" := by
      unfold format_caption
      rw [if_neg ht]
    rw [h1]
    exact format_caption_star (String.mk (stripExt t.toList))
  · intro inner t hdot hnl hlen hinf
    refine format_caption_preserves_token _ _ ?_ ?_ ?_ hinf
    · intro hc
      rcases List.mem_cons.mp hc with h | h
      · exact absurd h (by decide)
      · rcases List.mem_append.mp h with h | h
        · exact hdot h
        · exact absurd (List.mem_singleton.mp h) (by decide)
    · intro hc
      rcases List.mem_cons.mp hc with h | h
      · exact absurd h (by decide)
      · rcases List.mem_append.mp h with h | h
        · exact hnl h
        · exact absurd (List.mem_singleton.mp h) (by decide)
    · simp only [List.length_cons, List.length_append]
      simp
      omega

theorem format_caption_props_witness :
    format_caption (format_caption "a") = "**" ++ format_caption "a" ++ "**" ∧
    (('[' :: "720p".toList ++ [']']) <:+: (format_caption "x [720p].mp4").toList) :=
  ⟨format_caption_props.1 "a" (by decide),
   format_caption_props.2 ("720p".toList) "x [720p].mp4" (by decide) (by decide)
     (by decide) ⟨"x ".toList, ".mp4".toList, by decide⟩⟩

theorem quality_table_spec_witness :
    qualityRank "1440p" = 0 ∧
    (∃ ds : List Char, "720p" = String.mk ds ++ "p" ∧ ds.all Char.isDigit = true ∧
      (ds.length = 3 ∨ ds.length = 4)) :=
  ⟨quality_table_spec.2.2.2.2.2.1 "1440p" (by decide),
   quality_table_spec.2.2.2.2.2.2 "Breaking Bad S01E03 720p"
     ⟨some "Breaking Bad", some "01", some "03", some "720p"⟩ "720p"
     (by decide) rfl⟩
